import Mathlib

/-! Stepper motor API (28BYJ-48-5V, NUCLEO-64 STM32F103)

A shallow embedding of `STEP_MOTOR_28BYJ-48-5V_NUCLEO-64_STMF103.c` and its header.
The file-scope `static` variables of the C file become the fields of `MotorState`;
every C function becomes a function on `MotorState`.

C enumerations are integers.  Each enumeration is embedded as a type of enumerator
names together with a `toInt` function that gives the value the C compiler assigns
to the name; the state stores the integer, and every comparison of the C code is a
comparison of integers, as in C.
-/

namespace StepperMotor

/-! ## Machine integers -/

/-- Conversion to `int8_t` (two's complement wrap, as done by GCC). -/
def to_int8 (x : Int) : Int := (x + 128) % 256 - 128

/-- Conversion to `int16_t` (two's complement wrap, as done by GCC). -/
def to_int16 (x : Int) : Int := (x + 32768) % 65536 - 32768

/-- Conversion to `uint16_t` (reduction modulo 2^16). -/
def to_uint16 (x : Int) : Nat := (x % 65536).toNat

/-- Conversion to `uint32_t` (reduction modulo 2^32). -/
def to_uint32 (x : Nat) : Nat := x % 4294967296

/-! ## Exported types of the header -/

/-- Modelled from the spec: the HAL type `GPIO_PinState` (declared in
`stm32f1xx_hal_gpio.h`, which is not among the sources), a two-valued line state. -/
inductive GPIO_PinState where
  | GPIO_PIN_RESET
  | GPIO_PIN_SET
  deriving DecidableEq

/-- Enumerator names of `StepMode`. -/
inductive StepMode where
  | WAVE_STEP
  | FULL_STEP
  | HALF_STEP
  deriving DecidableEq

/-- Values of the `StepMode` enumerators: `WAVE_STEP = 2, FULL_STEP = 2, HALF_STEP = 1`. -/
def StepMode.toInt : StepMode → Int
  | .WAVE_STEP => 2
  | .FULL_STEP => 2
  | .HALF_STEP => 1

/-- Enumerator names of `Direction`. -/
inductive Direction where
  | CLOCKWISE
  | COUNTERCLOCKWISE
  deriving DecidableEq

/-- Values of the `Direction` enumerators: `CLOCKWISE = 1, COUNTERCLOCKWISE = -1`. -/
def Direction.toInt : Direction → Int
  | .CLOCKWISE => 1
  | .COUNTERCLOCKWISE => -1

/-- Enumerator names of `StopMode`. -/
inductive StopMode where
  | TORQUE
  | FREE
  | TURNING
  deriving DecidableEq

/-- Values of the `StopMode` enumerators.  The header writes
`TORQUE = 1, FREE = 0, TURNING`; an enumerator without `=` has the value of the
previous enumerator plus one, so `TURNING` is `FREE + 1`. -/
def StopMode.toInt : StopMode → Int
  | .TORQUE => 1
  | .FREE => 0
  | .TURNING => 0 + 1

/-! ## Exported constants of the header -/

open GPIO_PinState in
/-- The phase states matrix `PHASE_STATES[8][4]`. -/
def PHASE_STATES : List (List GPIO_PinState) :=
  [ [GPIO_PIN_RESET, GPIO_PIN_SET, GPIO_PIN_SET, GPIO_PIN_SET],
    [GPIO_PIN_RESET, GPIO_PIN_RESET, GPIO_PIN_SET, GPIO_PIN_SET],
    [GPIO_PIN_SET, GPIO_PIN_RESET, GPIO_PIN_SET, GPIO_PIN_SET],
    [GPIO_PIN_SET, GPIO_PIN_RESET, GPIO_PIN_RESET, GPIO_PIN_SET],
    [GPIO_PIN_SET, GPIO_PIN_SET, GPIO_PIN_RESET, GPIO_PIN_SET],
    [GPIO_PIN_SET, GPIO_PIN_SET, GPIO_PIN_RESET, GPIO_PIN_RESET],
    [GPIO_PIN_SET, GPIO_PIN_SET, GPIO_PIN_SET, GPIO_PIN_RESET],
    [GPIO_PIN_RESET, GPIO_PIN_SET, GPIO_PIN_SET, GPIO_PIN_RESET] ]

open GPIO_PinState in
/-- The state of the phases without torque, `OFF_STATE[4]`. -/
def OFF_STATE : List GPIO_PinState :=
  [GPIO_PIN_SET, GPIO_PIN_SET, GPIO_PIN_SET, GPIO_PIN_SET]

/-! ## The state: the `static` variables of the C file -/

/-- The file-scope variables.  Unsigned variables are `Nat`, signed variables and
enumeration objects are `Int`. -/
structure MotorState where
  blue_wire_pin : Nat
  pink_wire_pin : Nat
  yellow_wire_pin : Nat
  orange_wire_pin : Nat
  port : Nat
  step_mode : Int
  current_direction : Int
  stop_mode : Int
  total_steps : Nat
  remaning_steps : Int
  current_step : Int
  current_millis : Nat
  current_speed : Nat
  is_infinite_turn : Nat
  deriving DecidableEq

/-- The state at program start: `step_mode = NULL`, `stop_mode = FREE`,
`current_step = 8`, `current_millis = 0`; a `static` variable without initializer
is zero. -/
def init : MotorState :=
  { blue_wire_pin := 0
    pink_wire_pin := 0
    yellow_wire_pin := 0
    orange_wire_pin := 0
    port := 0
    step_mode := 0
    current_direction := 0
    stop_mode := StopMode.FREE.toInt
    total_steps := 0
    remaning_steps := 0
    current_step := 8
    current_millis := 0
    current_speed := 0
    is_infinite_turn := 0 }

/-! ## Configuration functions -/

/-- The C function `set_pins`. -/
def set_pins (GPIOx blue_wire pink_wire yellow_wire orange_wire : Nat)
    (s : MotorState) : MotorState :=
  { s with
    port := GPIOx
    blue_wire_pin := to_uint16 blue_wire
    pink_wire_pin := to_uint16 pink_wire
    yellow_wire_pin := to_uint16 yellow_wire
    orange_wire_pin := to_uint16 orange_wire }

/-- The C function `set_step_mode`.  `%` of C is `Int.tmod` (truncating). -/
def set_step_mode (mode : StepMode) (s : MotorState) : MotorState :=
  let s1 := { s with step_mode := mode.toInt }
  if s1.current_step = 8 then
    if s1.step_mode = StepMode.FULL_STEP.toInt then
      { s1 with current_step := 1 }
    else
      { s1 with current_step := 0 }
  else
    if s1.step_mode = StepMode.FULL_STEP.toInt ∧ Int.tmod s1.current_step 2 = 0 then
      { s1 with current_step := to_int8 (s1.current_step + 1) }
    else if s1.step_mode = StepMode.WAVE_STEP.toInt ∧ Int.tmod s1.current_step 2 = 1 then
      { s1 with current_step := to_int8 (s1.current_step - 1) }
    else
      s1

/-! ## Movement functions -/

/-- The C function `turn_steps`.  The `uint16_t` parameters are reduced to their
range; `remaning_steps` is an `int16_t`, so the assignment converts. -/
def turn_steps (num_steps speed : Nat) (direction : Direction)
    (s : MotorState) : MotorState :=
  { s with
    current_direction := direction.toInt
    total_steps := to_uint16 num_steps
    remaning_steps := to_int16 (to_uint16 num_steps)
    is_infinite_turn := 0
    current_speed := to_uint16 speed
    stop_mode := StopMode.TURNING.toInt }

/-- The C function `turn_infinite`. -/
def turn_infinite (speed : Nat) (direction : Direction) (s : MotorState) : MotorState :=
  { s with
    is_infinite_turn := 1
    current_speed := to_uint16 speed
    current_direction := direction.toInt
    stop_mode := StopMode.TURNING.toInt }

/-- The C function `stop`. -/
def stop (mode : StopMode) (s : MotorState) : MotorState :=
  { s with stop_mode := mode.toInt }

/-- The C function `continue_movement`.  `total_steps - remaning_steps` is computed
in `int` and converted to the `uint16_t` variable. -/
def continue_movement (direction : Direction) (s : MotorState) : MotorState :=
  if s.stop_mode ≠ StopMode.TURNING.toInt then
    let s1 :=
      if s.current_direction ≠ direction.toInt then
        { s with
          total_steps := to_uint16 ((s.total_steps : Int) - s.remaning_steps)
          current_direction := direction.toInt }
      else s
    { s1 with stop_mode := StopMode.TURNING.toInt }
  else s

/-! ## The controller -/

/-- What one call of `turn_cotroller` does to the four output lines. -/
inductive Commit where
  /-- The interval has not elapsed: `HAL_GPIO_WritePin` is not called. -/
  | no_write
  /-- The four values passed to `HAL_GPIO_WritePin`, in the order blue, pink, yellow,
  orange. -/
  | lines (output : List GPIO_PinState)
  /-- The array `output` was filled from `PHASE_STATES[idx]` with `idx` outside the
  eight rows (a read outside the array). -/
  | out_of_table (idx : Int)
  /-- The array `output` was passed to `HAL_GPIO_WritePin` without having been
  assigned. -/
  | unassigned
  deriving DecidableEq

/-- The loop `for i in 0..3: output[i] = PHASE_STATES[idx][i]`. -/
def read_row (idx : Int) : Commit :=
  if 0 ≤ idx ∧ idx < 8 then
    match PHASE_STATES[idx.toNat]? with
    | some row => Commit.lines row
    | none => Commit.out_of_table idx
  else Commit.out_of_table idx

/-- A call that resets the elapsed counter and writes the lines. -/
def Commit.isDecision : Commit → Bool
  | .no_write => false
  | _ => true

/-- The C function `turn_cotroller`.  The result is `none` when `1000/current_speed`
divides by zero; otherwise it is the new state and what was written to the lines.
The fields are updated in the order of the C statements. -/
def turn_cotroller (s : MotorState) : Option (MotorState × Commit) :=
  if s.current_speed = 0 then none
  else if s.current_millis ≥ 1000 / s.current_speed then
    let s1 := { s with current_millis := 0 }
    if s1.stop_mode = StopMode.FREE.toInt then
      some ({ s1 with current_millis := to_uint32 (s1.current_millis + 1) },
            Commit.lines OFF_STATE)
    else if s1.stop_mode = StopMode.TORQUE.toInt then
      some ({ s1 with current_millis := to_uint32 (s1.current_millis + 1) },
            read_row s1.current_step)
    else if s1.is_infinite_turn = 1 ∨ s1.remaning_steps > 0 then
      let c := to_int8 (Int.tmod
        (to_int8 (s1.current_step + s1.current_direction * s1.step_mode)) 8)
      let c := if c < 0 then to_int8 (8 - c) else c
      let r := to_int16 (s1.remaning_steps - 1)
      let r := if r < 0 then 0 else r
      some ({ s1 with
              current_step := c
              remaning_steps := r
              current_millis := to_uint32 (s1.current_millis + 1) },
            read_row c)
    else
      some ({ s1 with current_millis := to_uint32 (s1.current_millis + 1) },
            Commit.unassigned)
  else
    some ({ s with current_millis := to_uint32 (s.current_millis + 1) }, Commit.no_write)

/-- The result of `n` successive calls of `turn_cotroller`: the final state and the
list of what each call wrote, in call order. -/
def ticks : Nat → MotorState → Option (MotorState × List Commit)
  | 0, s => some (s, [])
  | n + 1, s =>
    match turn_cotroller s with
    | none => none
    | some (s1, c) =>
      match ticks n s1 with
      | none => none
      | some (s2, cs) => some (s2, c :: cs)

/-- The number of step decisions in a trace of calls. -/
def decisions (cs : List Commit) : Nat := (cs.filter Commit.isDecision).length

/-! ## Sequences of API calls -/

/-- One call of the API, with its arguments. -/
inductive Call where
  | set_step_mode (mode : StepMode)
  | turn_steps (num_steps speed : Nat) (direction : Direction)
  | turn_infinite (speed : Nat) (direction : Direction)
  | stop (mode : StopMode)
  | continue_movement (direction : Direction)
  | turn_cotroller
  deriving DecidableEq

/-- The effect of one call. -/
def Call.apply : Call → MotorState → Option MotorState
  | .set_step_mode mode, s => some (StepperMotor.set_step_mode mode s)
  | .turn_steps n speed d, s => some (StepperMotor.turn_steps n speed d s)
  | .turn_infinite speed d, s => some (StepperMotor.turn_infinite speed d s)
  | .stop mode, s => some (StepperMotor.stop mode s)
  | .continue_movement d, s => some (StepperMotor.continue_movement d s)
  | .turn_cotroller, s => (StepperMotor.turn_cotroller s).map Prod.fst

/-- The effect of a sequence of calls, first call first. -/
def run : List Call → MotorState → Option MotorState
  | [], s => some s
  | c :: cs, s =>
    match c.apply s with
    | none => none
    | some s1 => run cs s1

/-! ## Concrete states used below -/

/-- A finite counter-clockwise half-step turn has been started from row 0. -/
def half_ccw_turn : MotorState :=
  turn_steps 5 1000 Direction.COUNTERCLOCKWISE (set_step_mode StepMode.HALF_STEP init)

/-- The state `half_ccw_turn` with a `stop_mode` of 2, a value that no enumerator of
`StopMode` has, and the elapsed counter at the interval. -/
def half_ccw_turn_mode2 : MotorState :=
  { half_ccw_turn with stop_mode := 2, current_millis := 1 }

/-- A stopped finite turn of 10 steps with 6 steps remaining. -/
def stopped_10_6 : MotorState :=
  { init with
    step_mode := StepMode.HALF_STEP.toInt
    current_step := 4
    current_direction := Direction.CLOCKWISE.toInt
    stop_mode := StopMode.FREE.toInt
    total_steps := 10
    remaning_steps := 6
    current_speed := 5 }

/-- A free stop, and a torque stop at row 3, both with the interval elapsed. -/
def stopped_free : MotorState :=
  { init with current_step := 3, current_speed := 4, current_millis := 250,
              stop_mode := StopMode.FREE.toInt }

/-- A torque stop at row 3 with the interval elapsed. -/
def stopped_torque : MotorState :=
  { init with current_step := 3, current_speed := 4, current_millis := 250,
              stop_mode := StopMode.TORQUE.toInt }

/-- The scenario `turn_steps(4, 2, CLOCKWISE)` in half-step mode from row 0. -/
def half_cw_4_at_2 : MotorState :=
  turn_steps 4 2 Direction.CLOCKWISE (set_step_mode StepMode.HALF_STEP init)

/-- A finite turn of 10 steps is started, stopped free, continued in the opposite
direction and stopped free again. -/
def reversed_calls : List Call :=
  [ Call.turn_steps 10 5 Direction.CLOCKWISE,
    Call.stop StopMode.FREE,
    Call.continue_movement Direction.COUNTERCLOCKWISE,
    Call.stop StopMode.FREE ]

/-- The state after `reversed_calls`: `total_steps = 0`, `remaning_steps = 10`. -/
def reversed_state : MotorState :=
  { init with
    current_direction := Direction.COUNTERCLOCKWISE.toInt
    stop_mode := StopMode.FREE.toInt
    total_steps := 0
    remaning_steps := 10
    current_speed := 5 }

/-- Calls made after an initial `set_step_mode(FULL_STEP)`: a finite turn is started,
the controller is called twice and the mode is switched. -/
def switch_calls : List Call :=
  [ Call.turn_steps 3 1000 Direction.COUNTERCLOCKWISE,
    Call.turn_cotroller,
    Call.turn_cotroller,
    Call.set_step_mode StepMode.WAVE_STEP ]

/-- The state after `set_step_mode(FULL_STEP)` followed by `switch_calls`. -/
def switch_state : MotorState :=
  { init with
    step_mode := 2
    current_direction := -1
    stop_mode := 1
    total_steps := 3
    remaning_steps := 3
    current_step := 0
    current_millis := 1
    current_speed := 1000 }

/-- A finite turn of 0 steps has been started in half-step mode: a completed finite
turn (`stop_mode = TURNING`, `is_infinite_turn = 0`, `remaning_steps = 0`). -/
def completed_turn : MotorState :=
  turn_steps 0 1000 Direction.CLOCKWISE (set_step_mode StepMode.HALF_STEP init)

/-- The state `completed_turn` with a `stop_mode` of 2, a value that no enumerator of
`StopMode` has, and the elapsed counter at the interval. -/
def completed_turn_mode2 : MotorState :=
  { completed_turn with stop_mode := 2, current_millis := 1 }

/-- A clockwise turn in full-step mode at row 7. -/
def full_turn_at_7 : MotorState :=
  { turn_steps 6 1000 Direction.CLOCKWISE (set_step_mode StepMode.FULL_STEP init) with
    current_step := 7 }

/-! ## Reading the phase table -/

/-- The number of energized coils of a row: a coil is on when its line is low
(`GPIO_PIN_RESET`). -/
def energized (row : List GPIO_PinState) : Nat :=
  (row.filter (fun x => decide (x = GPIO_PinState.GPIO_PIN_RESET))).length

/-- The number of lines in which two rows differ. -/
def differing_lines (a b : List GPIO_PinState) : Nat :=
  ((List.zip a b).filter (fun p => decide (p.1 ≠ p.2))).length

/-- The row `PHASE_STATES[i]` for `i` below 8. -/
def phase_row (i : Fin 8) : List GPIO_PinState := PHASE_STATES.getD i.val []

/-- The call is a `continue_movement`. -/
def Call.isContinue : Call → Bool
  | .continue_movement _ => true
  | _ => false

/-- The values of `stop_mode` that the API can store, together with a row index
inside the table. -/
def Held (s : MotorState) : Prop :=
  (s.stop_mode = 0 ∨ s.stop_mode = 1) ∧ 0 ≤ s.current_step ∧ s.current_step ≤ 7

/-! ## Basic facts about one call of the controller -/

theorem to_uint16_of_lt (n : Nat) (h : n < 65536) : to_uint16 n = n := by
  unfold to_uint16
  omega

theorem turn_cotroller_wait (s : MotorState) (hspeed : 0 < s.current_speed)
    (hlt : s.current_millis < 1000 / s.current_speed) :
    turn_cotroller s =
      some ({ s with current_millis := to_uint32 (s.current_millis + 1) }, Commit.no_write) := by
  unfold turn_cotroller
  have h0 : s.current_speed ≠ 0 := by omega
  have h1 : ¬ (s.current_millis ≥ 1000 / s.current_speed) := by omega
  simp [h0, h1]

theorem turn_cotroller_free (s : MotorState) (hspeed : 0 < s.current_speed)
    (hdue : 1000 / s.current_speed ≤ s.current_millis)
    (hmode : s.stop_mode = StopMode.FREE.toInt) :
    turn_cotroller s = some ({ s with current_millis := 1 }, Commit.lines OFF_STATE) := by
  unfold turn_cotroller
  have h0 : s.current_speed ≠ 0 := by omega
  simp [h0, hdue, hmode, to_uint32]

theorem turn_cotroller_torque (s : MotorState) (hspeed : 0 < s.current_speed)
    (hdue : 1000 / s.current_speed ≤ s.current_millis)
    (hmode : s.stop_mode = StopMode.TORQUE.toInt) :
    turn_cotroller s = some ({ s with current_millis := 1 }, read_row s.current_step) := by
  unfold turn_cotroller
  have h0 : s.current_speed ≠ 0 := by omega
  simp [h0, hdue, hmode, to_uint32, StopMode.toInt]

theorem read_row_in_table (i : Int) (h0 : 0 ≤ i) (h7 : i ≤ 7) :
    ∃ row, PHASE_STATES[i.toNat]? = some row ∧ read_row i = Commit.lines row := by
  have h : i = 0 ∨ i = 1 ∨ i = 2 ∨ i = 3 ∨ i = 4 ∨ i = 5 ∨ i = 6 ∨ i = 7 := by omega
  rcases h with h | h | h | h | h | h | h | h <;> subst h <;> exact ⟨_, rfl, rfl⟩

/-- With `stop_mode` outside the values 0 and 1, the advancing branch of the
controller is taken; a counter-clockwise half step from row 0 then stores 9 in
`current_step` (`8 - current_step` with `current_step = -1`) and reads row 9. -/
theorem advance_branch_negative_wrap :
    (turn_cotroller half_ccw_turn_mode2).map (fun r => (r.1.current_step, r.2)) =
      some (9, Commit.out_of_table 9) := by
  decide

/-! ## Sequences of calls of the controller -/

theorem ticks_append (a b : Nat) (s s1 s2 : MotorState) (t1 t2 : List Commit)
    (h1 : ticks a s = some (s1, t1)) (h2 : ticks b s1 = some (s2, t2)) :
    ticks (a + b) s = some (s2, t1 ++ t2) := by
  induction a generalizing s t1 with
  | zero =>
    simp only [ticks, Option.some.injEq, Prod.mk.injEq] at h1
    obtain ⟨rfl, rfl⟩ := h1
    simpa using h2
  | succ n ih =>
    rw [show n + 1 + b = (n + b) + 1 by omega]
    simp only [ticks] at h1 ⊢
    cases hc : turn_cotroller s with
    | none => simp [hc] at h1
    | some r =>
      obtain ⟨sa, c⟩ := r
      simp only [hc] at h1 ⊢
      cases hn : ticks n sa with
      | none => simp [hn] at h1
      | some q =>
        obtain ⟨sb, cs⟩ := q
        simp only [hn, Option.some.injEq, Prod.mk.injEq] at h1
        obtain ⟨rfl, rfl⟩ := h1
        simp [ih sa cs hn]

theorem ticks_one (s s1 : MotorState) (c : Commit) (h : turn_cotroller s = some (s1, c)) :
    ticks 1 s = some (s1, [c]) := by
  simp [ticks, h]

theorem ticks_wait (k : Nat) (s : MotorState) (hspeed : 0 < s.current_speed)
    (hle : s.current_millis + k ≤ 1000 / s.current_speed) :
    ticks k s = some ({ s with current_millis := s.current_millis + k },
      List.replicate k Commit.no_write) := by
  induction k generalizing s with
  | zero => simp [ticks]
  | succ n ih =>
    have hI : 1000 / s.current_speed ≤ 1000 := Nat.div_le_self _ _
    have hlt : s.current_millis < 1000 / s.current_speed := by omega
    have e : to_uint32 (s.current_millis + 1) = s.current_millis + 1 := by
      unfold to_uint32
      omega
    have hs := ih { s with current_millis := s.current_millis + 1 } hspeed
      (by simp only; omega)
    simp only [ticks, turn_cotroller_wait s hspeed hlt, e, hs, List.replicate_succ]
    simp only [Option.some.injEq, Prod.mk.injEq, and_true]
    congr 1
    omega

theorem read_row_isDecision (i : Int) : (read_row i).isDecision = true := by
  unfold read_row
  split_ifs
  · split <;> rfl
  · rfl

theorem turn_cotroller_decides (s : MotorState) (hspeed : 0 < s.current_speed)
    (hdue : 1000 / s.current_speed ≤ s.current_millis) :
    ∃ s1 c, turn_cotroller s = some (s1, c) ∧ c.isDecision = true ∧
      s1.current_millis = 1 ∧ s1.current_speed = s.current_speed ∧
      s1.stop_mode = s.stop_mode := by
  have h0 : s.current_speed ≠ 0 := by omega
  unfold turn_cotroller
  simp only [h0, if_false, ge_iff_le, hdue, if_true]
  split_ifs <;> refine ⟨_, _, rfl, ?_, rfl, rfl, rfl⟩ <;>
    first | rfl | exact read_row_isDecision _

theorem decisions_append (a b : List Commit) :
    decisions (a ++ b) = decisions a + decisions b := by
  simp [decisions]

theorem decisions_replicate (k : Nat) :
    decisions (List.replicate k Commit.no_write) = 0 := by
  induction k with
  | zero => rfl
  | succ n ih =>
    simp only [List.replicate_succ]
    simp [decisions, Commit.isDecision]

theorem decisions_single (c : Commit) (h : c.isDecision = true) : decisions [c] = 1 := by
  simp [decisions, h]

/-- From a state whose elapsed counter has reached the interval, the next call decides
and the `interval - 1` calls after it do not; the counter is at the interval again. -/
theorem ticks_block (s : MotorState) (hspeed : 0 < s.current_speed)
    (hI : 1 ≤ 1000 / s.current_speed)
    (hdue : 1000 / s.current_speed ≤ s.current_millis) :
    ∃ s2 c, c.isDecision = true ∧
      ticks (1000 / s.current_speed) s =
        some (s2, c :: List.replicate (1000 / s.current_speed - 1) Commit.no_write) ∧
      s2.current_millis = 1000 / s.current_speed ∧
      s2.current_speed = s.current_speed ∧ s2.stop_mode = s.stop_mode := by
  obtain ⟨s1, c, hc, hdec, hm, hsp, hst⟩ := turn_cotroller_decides s hspeed hdue
  have hw := ticks_wait (1000 / s.current_speed - 1) s1 (by omega)
    (by rw [hm, hsp]; omega)
  have happ := ticks_append 1 (1000 / s.current_speed - 1) s s1 _ [c] _
    (ticks_one s s1 c hc) hw
  rw [show 1 + (1000 / s.current_speed - 1) = 1000 / s.current_speed by omega] at happ
  refine ⟨_, c, hdec, happ, ?_, hsp, hst⟩
  simp only [hm]
  omega

/-- From an elapsed counter of 0, `(m + 1) * interval` calls make `m` decisions and
leave the counter at the interval. -/
theorem ticks_from_zero (m : Nat) (s : MotorState) (hspeed : 0 < s.current_speed)
    (hI : 1 ≤ 1000 / s.current_speed) (h0 : s.current_millis = 0) :
    ∃ s2 tr, ticks ((m + 1) * (1000 / s.current_speed)) s = some (s2, tr) ∧
      decisions tr = m ∧ s2.current_millis = 1000 / s.current_speed ∧
      s2.current_speed = s.current_speed := by
  induction m with
  | zero =>
    have hw := ticks_wait (1000 / s.current_speed) s hspeed (by omega)
    refine ⟨{ s with current_millis := s.current_millis + 1000 / s.current_speed }, _,
      by rw [Nat.zero_add, Nat.one_mul]; exact hw, decisions_replicate _, by simp [h0], rfl⟩
  | succ n ih =>
    obtain ⟨s2, tr, ht, hd, hm, hsp⟩ := ih
    obtain ⟨s3, c, hdec, hb, hm3, hsp3, _⟩ :=
      ticks_block s2 (by omega) (by rw [hsp]; exact hI) (by rw [hm, hsp])
    rw [hsp] at hb hm3
    have happ := ticks_append _ _ s s2 s3 tr _ ht hb
    rw [show (n + 1) * (1000 / s.current_speed) + 1000 / s.current_speed =
      (n + 1 + 1) * (1000 / s.current_speed) by ring] at happ
    refine ⟨s3, _, happ, ?_, hm3, by rw [hsp3, hsp]⟩
    rw [decisions_append, hd, show c :: List.replicate (1000 / s.current_speed - 1)
      Commit.no_write = [c] ++ List.replicate (1000 / s.current_speed - 1) Commit.no_write
      from rfl, decisions_append, decisions_single c hdec, decisions_replicate]

/-- One call with `stop_mode` 0 or 1 changes nothing but the elapsed counter and reads
no row outside the table when `current_step` is inside. -/
theorem turn_cotroller_held (s s1 : MotorState) (c : Commit)
    (hmode : s.stop_mode = 0 ∨ s.stop_mode = 1)
    (h : turn_cotroller s = some (s1, c)) :
    s1 = { s with current_millis := s1.current_millis } ∧
    (c = Commit.no_write ∨ c = Commit.lines OFF_STATE ∨ c = read_row s.current_step) := by
  unfold turn_cotroller at h
  simp only [StopMode.toInt] at h
  split_ifs at h with h1 h2 h3 h4 h5
  all_goals first
    | (exfalso; omega)
    | (simp only [Option.some.injEq, Prod.mk.injEq] at h
       obtain ⟨rfl, rfl⟩ := h
       simp)

theorem ticks_held (n : Nat) (s : MotorState) (hspeed : 0 < s.current_speed)
    (hmode : s.stop_mode = 0 ∨ s.stop_mode = 1) :
    ∃ s2 tr, ticks n s = some (s2, tr) ∧
      s2 = { s with current_millis := s2.current_millis } := by
  induction n generalizing s with
  | zero => exact ⟨s, [], rfl, rfl⟩
  | succ k ih =>
    have h0 : s.current_speed ≠ 0 := by omega
    cases hc : turn_cotroller s with
    | none =>
      unfold turn_cotroller at hc
      simp only [h0, if_false] at hc
      split_ifs at hc
    | some r =>
      obtain ⟨s1, c⟩ := r
      obtain ⟨e1, _⟩ := turn_cotroller_held s s1 c hmode hc
      have hsp : s1.current_speed = s.current_speed := by rw [e1]
      have hst : s1.stop_mode = s.stop_mode := by rw [e1]
      obtain ⟨s2, tr, ht, e2⟩ := ih s1 (by omega) (by rw [hst]; exact hmode)
      refine ⟨s2, c :: tr, by simp [ticks, hc, ht], ?_⟩
      rw [e2, e1]

/-! ## The values that the API stores in `stop_mode` -/

theorem held_set_step_mode (m : StepMode) (s : MotorState)
    (hmode : s.stop_mode = 0 ∨ s.stop_mode = 1)
    (hstep : s.current_step = 8 ∨ (0 ≤ s.current_step ∧ s.current_step ≤ 7)) :
    Held (set_step_mode m s) := by
  have h : s.current_step = 8 ∨ s.current_step = 0 ∨ s.current_step = 1 ∨
      s.current_step = 2 ∨ s.current_step = 3 ∨ s.current_step = 4 ∨
      s.current_step = 5 ∨ s.current_step = 6 ∨ s.current_step = 7 := by omega
  unfold Held set_step_mode
  have t0 : Int.tmod 0 2 = 0 := by decide
  have t1 : Int.tmod 1 2 = 1 := by decide
  have t2 : Int.tmod 2 2 = 0 := by decide
  have t3 : Int.tmod 3 2 = 1 := by decide
  have t4 : Int.tmod 4 2 = 0 := by decide
  have t5 : Int.tmod 5 2 = 1 := by decide
  have t6 : Int.tmod 6 2 = 0 := by decide
  have t7 : Int.tmod 7 2 = 1 := by decide
  rcases h with h | h | h | h | h | h | h | h | h <;> cases m <;>
    simp [h, StepMode.toInt, to_int8, hmode, t0, t1, t2, t3, t4, t5, t6, t7]

theorem held_apply (c : Call) (s s1 : MotorState) (h : Held s)
    (ha : c.apply s = some s1) : Held s1 := by
  obtain ⟨hm, h0, h7⟩ := h
  cases c with
  | set_step_mode mode =>
    simp only [Call.apply, Option.some.injEq] at ha
    subst ha
    exact held_set_step_mode mode s hm (Or.inr ⟨h0, h7⟩)
  | turn_steps n speed d =>
    simp only [Call.apply, Option.some.injEq] at ha
    subst ha
    exact ⟨Or.inr rfl, h0, h7⟩
  | turn_infinite speed d =>
    simp only [Call.apply, Option.some.injEq] at ha
    subst ha
    exact ⟨Or.inr rfl, h0, h7⟩
  | stop mode =>
    simp only [Call.apply, Option.some.injEq] at ha
    subst ha
    cases mode
    · exact ⟨Or.inr rfl, h0, h7⟩
    · exact ⟨Or.inl rfl, h0, h7⟩
    · exact ⟨Or.inr rfl, h0, h7⟩
  | continue_movement d =>
    simp only [Call.apply, Option.some.injEq] at ha
    subst ha
    unfold continue_movement
    split_ifs
    · exact ⟨Or.inr rfl, h0, h7⟩
    · exact ⟨Or.inr rfl, h0, h7⟩
    · exact ⟨hm, h0, h7⟩
  | turn_cotroller =>
    simp only [Call.apply, Option.map_eq_some', Prod.exists, exists_and_right,
      exists_eq_right] at ha
    obtain ⟨c, hc⟩ := ha
    obtain ⟨e, _⟩ := turn_cotroller_held s s1 c hm hc
    rw [e]
    exact ⟨hm, h0, h7⟩

theorem held_run (cs : List Call) (s s1 : MotorState) (h : Held s)
    (hr : run cs s = some s1) : Held s1 := by
  induction cs generalizing s with
  | nil =>
    simp only [run, Option.some.injEq] at hr
    subst hr
    exact h
  | cons c rest ih =>
    simp only [run] at hr
    cases ha : c.apply s with
    | none => simp [ha] at hr
    | some sa =>
      simp only [ha] at hr
      exact ih sa (held_apply c s sa h ha) hr

/-! ## Step counters and row parity -/

theorem turn_cotroller_total (s : MotorState) (hspeed : 0 < s.current_speed) :
    ∃ r, turn_cotroller s = some r := by
  have h0 : s.current_speed ≠ 0 := by omega
  unfold turn_cotroller
  simp only [h0, if_false]
  split_ifs <;> exact ⟨_, rfl⟩

theorem set_step_mode_counters (m : StepMode) (s : MotorState) :
    (set_step_mode m s).remaning_steps = s.remaning_steps ∧
    (set_step_mode m s).total_steps = s.total_steps ∧
    (set_step_mode m s).stop_mode = s.stop_mode := by
  unfold set_step_mode
  simp only
  split_ifs <;> exact ⟨rfl, rfl, rfl⟩

theorem turn_steps_counters (n speed : Nat) (d : Direction) (s : MotorState) :
    (turn_steps n speed d s).remaning_steps ≤ ((turn_steps n speed d s).total_steps : Int) := by
  simp only [turn_steps, to_int16, to_uint16]
  omega

theorem continue_movement_counters (d : Direction) (s : MotorState)
    (hsame : s.stop_mode = StopMode.TURNING.toInt ∨ s.current_direction = d.toInt) :
    (continue_movement d s).remaning_steps = s.remaning_steps ∧
    (continue_movement d s).total_steps = s.total_steps := by
  unfold continue_movement
  rcases hsame with h | h
  · simp [h]
  · simp only [h, ne_eq, not_true_eq_false, if_false]
    split_ifs <;> exact ⟨rfl, rfl⟩

/-- One call of the controller keeps `remaning_steps ≤ total_steps`, provided that
`remaning_steps` is above the `int16_t` minimum or `stop_mode` is 0 or 1. -/
theorem turn_cotroller_counters (s s1 : MotorState) (c : Commit)
    (h : s.remaning_steps ≤ (s.total_steps : Int))
    (hside : -32768 < s.remaning_steps ∨ s.stop_mode = 0 ∨ s.stop_mode = 1)
    (hc : turn_cotroller s = some (s1, c)) :
    s1.remaning_steps ≤ (s1.total_steps : Int) := by
  unfold turn_cotroller at hc
  simp only [StopMode.toInt, to_int16] at hc
  split_ifs at hc with h1 h2 h3 h4 h5 h6
  all_goals first
    | (exfalso; omega)
    | (simp only [Option.some.injEq, Prod.mk.injEq] at hc
       obtain ⟨rfl, _⟩ := hc
       simp only
       omega)

theorem counters_apply (c : Call) (s s1 : MotorState)
    (hmode : s.stop_mode = 0 ∨ s.stop_mode = 1)
    (h : s.remaning_steps ≤ (s.total_steps : Int))
    (hc : c.isContinue = false) (ha : c.apply s = some s1) :
    (s1.stop_mode = 0 ∨ s1.stop_mode = 1) ∧ s1.remaning_steps ≤ (s1.total_steps : Int) := by
  cases c with
  | set_step_mode mode =>
    simp only [Call.apply, Option.some.injEq] at ha
    subst ha
    obtain ⟨e1, e2, e3⟩ := set_step_mode_counters mode s
    rw [e1, e2, e3]
    exact ⟨hmode, h⟩
  | turn_steps n speed d =>
    simp only [Call.apply, Option.some.injEq] at ha
    subst ha
    exact ⟨Or.inr rfl, turn_steps_counters n speed d s⟩
  | turn_infinite speed d =>
    simp only [Call.apply, Option.some.injEq] at ha
    subst ha
    exact ⟨Or.inr rfl, h⟩
  | stop mode =>
    simp only [Call.apply, Option.some.injEq] at ha
    subst ha
    cases mode
    · exact ⟨Or.inr rfl, h⟩
    · exact ⟨Or.inl rfl, h⟩
    · exact ⟨Or.inr rfl, h⟩
  | continue_movement d => simp [Call.isContinue] at hc
  | turn_cotroller =>
    simp only [Call.apply, Option.map_eq_some', Prod.exists, exists_and_right,
      exists_eq_right] at ha
    obtain ⟨c, hc1⟩ := ha
    obtain ⟨e, _⟩ := turn_cotroller_held s s1 c hmode hc1
    have hst : s1.stop_mode = s.stop_mode := by rw [e]
    exact ⟨by rw [hst]; exact hmode,
      turn_cotroller_counters s s1 c h (Or.inr hmode) hc1⟩

theorem counters_run (cs : List Call) (s s1 : MotorState)
    (hmode : s.stop_mode = 0 ∨ s.stop_mode = 1)
    (h : s.remaning_steps ≤ (s.total_steps : Int))
    (hc : ∀ c ∈ cs, c.isContinue = false) (hr : run cs s = some s1) :
    s1.remaning_steps ≤ (s1.total_steps : Int) := by
  induction cs generalizing s with
  | nil =>
    simp only [run, Option.some.injEq] at hr
    subst hr
    exact h
  | cons c rest ih =>
    simp only [run] at hr
    cases ha : c.apply s with
    | none => simp [ha] at hr
    | some sa =>
      simp only [ha] at hr
      obtain ⟨hm1, h1⟩ := counters_apply c s sa hmode h (hc c (List.mem_cons_self c rest)) ha
      exact ih sa hm1 h1 (fun x hx => hc x (List.mem_cons_of_mem c hx)) hr

/-- One call of the controller with a step mode of value 2 keeps the parity of
`current_step`, in every branch. -/
theorem turn_cotroller_parity (s s1 : MotorState) (c : Commit)
    (hmode : s.step_mode = 2) (hc : turn_cotroller s = some (s1, c)) :
    s1.current_step % 2 = s.current_step % 2 ∧ s1.step_mode = s.step_mode ∧
    s1.current_speed = s.current_speed := by
  have ht := Int.tmod_add_tdiv (to_int8 (s.current_step + s.current_direction * 2)) 8
  unfold turn_cotroller at hc
  simp only [hmode] at hc
  split_ifs at hc with h1 h2 h3 h4 h5 h6 h7
  all_goals
    simp only [Option.some.injEq, Prod.mk.injEq] at hc
    obtain ⟨rfl, _⟩ := hc
    refine ⟨?_, by simp only [hmode], rfl⟩
    first
      | rfl
      | (simp only [to_int8] at ht ⊢
         omega)

/-- With `stop_mode` outside the values 0 and 1, a step-deciding call in a completed
finite turn enters no branch that fills `output` and passes the unassigned array to
`HAL_GPIO_WritePin`. -/
theorem completed_turn_unassigned_output :
    (turn_cotroller completed_turn_mode2).map Prod.snd = some Commit.unassigned := by
  decide

/-! ## Claims -/

/-- C1: at a state with `stop_mode = TURNING`, `remaning_steps > 0`, row 0, half step
and counter-clockwise direction, the step-deciding call does not advance: since
`TURNING` and `TORQUE` are both 1, the controller takes the torque branch, leaves
`current_step` at 0 (not 7) and `remaning_steps` at 5, and commits row 0. -/
theorem turning_call_does_not_advance :
    half_ccw_turn.stop_mode = StopMode.TURNING.toInt ∧
    half_ccw_turn.remaning_steps = 5 ∧
    half_ccw_turn.current_step = 0 ∧
    half_ccw_turn.step_mode = 1 ∧
    half_ccw_turn.current_direction = -1 ∧
    ∃ s2, ticks 2 half_ccw_turn =
        some (s2, [Commit.no_write, Commit.lines (PHASE_STATES.getD 0 [])]) ∧
      s2.current_step = 0 ∧ s2.remaning_steps = 5 := by
  refine ⟨by decide, by decide, by decide, by decide, by decide, ?_⟩
  exact ⟨{ half_ccw_turn with current_millis := 1 }, by decide, by decide, by decide⟩

/-- C4 (as stated, refuted): a speed of 0 is stored as 0 by `turn_steps` and by
`turn_infinite`, and the next call of the controller divides by zero. -/
theorem zero_speed_is_stored :
    (turn_steps 5 0 Direction.CLOCKWISE init).current_speed = 0 ∧
    (turn_infinite 0 Direction.CLOCKWISE init).current_speed = 0 ∧
    turn_cotroller (turn_steps 5 0 Direction.CLOCKWISE init) = none ∧
    turn_cotroller (turn_infinite 0 Direction.CLOCKWISE init) = none := by
  decide

/-- C4 (amended): `turn_steps` and `turn_infinite` store the speed argument as given
(any 16-bit value, no rejection and no clamping); when the argument is at least 1 the
stored speed is at least 1 and the next call of the controller does not divide by
zero. -/
theorem movement_stores_speed (n speed : Nat) (d : Direction) (s : MotorState)
    (hfit : speed < 65536) :
    (turn_steps n speed d s).current_speed = speed ∧
    (turn_infinite speed d s).current_speed = speed ∧
    (1 ≤ speed →
      1 ≤ (turn_steps n speed d s).current_speed ∧
      1 ≤ (turn_infinite speed d s).current_speed ∧
      (∃ r, turn_cotroller (turn_steps n speed d s) = some r) ∧
      (∃ r, turn_cotroller (turn_infinite speed d s) = some r)) := by
  have e1 : (turn_steps n speed d s).current_speed = speed := by
    simp [turn_steps, to_uint16_of_lt speed hfit]
  have e2 : (turn_infinite speed d s).current_speed = speed := by
    simp [turn_infinite, to_uint16_of_lt speed hfit]
  refine ⟨e1, e2, fun hpos => ⟨by omega, by omega, ?_, ?_⟩⟩
  · have h0 : (turn_steps n speed d s).current_speed ≠ 0 := by omega
    unfold turn_cotroller
    simp only [h0, if_false]
    split_ifs <;> exact ⟨_, rfl⟩
  · have h0 : (turn_infinite speed d s).current_speed ≠ 0 := by omega
    unfold turn_cotroller
    simp only [h0, if_false]
    split_ifs <;> exact ⟨_, rfl⟩

theorem movement_stores_speed_witness :
    (3 : Nat) < 65536 ∧
    (turn_steps 7 3 Direction.CLOCKWISE init).current_speed = 3 ∧
    (turn_infinite 3 Direction.CLOCKWISE init).current_speed = 3 ∧
    (∃ r, turn_cotroller (turn_steps 7 3 Direction.CLOCKWISE init) = some r) :=
  have h := movement_stores_speed 7 3 Direction.CLOCKWISE init (by decide)
  ⟨by decide, h.1, h.2.1, (h.2.2 (by decide)).2.2.1⟩

/-- C5: on the uninitialized sequencer (`current_step = 8`), `set_step_mode(WAVE_STEP)`
stores 1 in `current_step`, as `set_step_mode(FULL_STEP)` does, because the two
enumerators have the same value 2; `set_step_mode(HALF_STEP)` stores 0. -/
theorem set_step_mode_wave_uninitialized :
    init.current_step = 8 ∧
    (set_step_mode StepMode.WAVE_STEP init).current_step = 1 ∧
    (set_step_mode StepMode.FULL_STEP init).current_step = 1 ∧
    (set_step_mode StepMode.HALF_STEP init).current_step = 0 := by
  decide

/-- C6: at row 1, `set_step_mode(FULL_STEP)` moves to row 0 (the `WAVE_STEP` branch
is taken, the enumerators being equal), and at row 0 `set_step_mode(WAVE_STEP)` moves
to row 1; calling `set_step_mode(FULL_STEP)` twice from the uninitialized state ends
at row 0 while calling it once ends at row 1. -/
theorem set_step_mode_toggles_parity :
    (set_step_mode StepMode.FULL_STEP { init with current_step := 1 }).current_step = 0 ∧
    (set_step_mode StepMode.WAVE_STEP { init with current_step := 0 }).current_step = 1 ∧
    (set_step_mode StepMode.FULL_STEP init).current_step = 1 ∧
    (set_step_mode StepMode.FULL_STEP (set_step_mode StepMode.FULL_STEP init)).current_step = 0 := by
  decide

/-- C9: a step-deciding call (positive speed, interval elapsed) with `stop_mode = FREE`
commits `OFF_STATE`, and with `stop_mode = TORQUE` and `current_step` in 0..7 commits
row `current_step` of `PHASE_STATES`; in both cases the state changes only in the
elapsed counter, which becomes 1, so `current_step` and `remaning_steps` are kept. -/
theorem stopped_call_output (s : MotorState) (hspeed : 0 < s.current_speed)
    (hdue : 1000 / s.current_speed ≤ s.current_millis) :
    (s.stop_mode = StopMode.FREE.toInt →
      turn_cotroller s = some ({ s with current_millis := 1 }, Commit.lines OFF_STATE)) ∧
    (s.stop_mode = StopMode.TORQUE.toInt → 0 ≤ s.current_step → s.current_step ≤ 7 →
      ∃ row, PHASE_STATES[s.current_step.toNat]? = some row ∧
        turn_cotroller s = some ({ s with current_millis := 1 }, Commit.lines row)) := by
  refine ⟨fun hmode => turn_cotroller_free s hspeed hdue hmode, fun hmode h0 h7 => ?_⟩
  obtain ⟨row, hrow, hread⟩ := read_row_in_table s.current_step h0 h7
  exact ⟨row, hrow, by rw [turn_cotroller_torque s hspeed hdue hmode, hread]⟩

theorem stopped_call_output_witness :
    (0 < stopped_free.current_speed ∧
      1000 / stopped_free.current_speed ≤ stopped_free.current_millis ∧
      stopped_free.stop_mode = StopMode.FREE.toInt ∧
      turn_cotroller stopped_free =
        some ({ stopped_free with current_millis := 1 }, Commit.lines OFF_STATE)) ∧
    (0 < stopped_torque.current_speed ∧
      1000 / stopped_torque.current_speed ≤ stopped_torque.current_millis ∧
      stopped_torque.stop_mode = StopMode.TORQUE.toInt ∧
      ∃ row, PHASE_STATES[stopped_torque.current_step.toNat]? = some row ∧
        turn_cotroller stopped_torque =
          some ({ stopped_torque with current_millis := 1 }, Commit.lines row)) :=
  ⟨⟨by decide, by decide, by decide,
      (stopped_call_output stopped_free (by decide) (by decide)).1 (by decide)⟩,
   ⟨by decide, by decide, by decide,
      (stopped_call_output stopped_torque (by decide) (by decide)).2
        (by decide) (by decide) (by decide)⟩⟩

/-- C10 (as stated, refuted): in the state reached by `reversed_calls` the stop mode
is not `TURNING` and the stored direction differs from `CLOCKWISE`, yet
`continue_movement(CLOCKWISE)` stores 65526 in `total_steps`, which is not the old
`total_steps - remaning_steps = 0 - 10`. -/
theorem continue_movement_total_wraps :
    run reversed_calls init = some reversed_state ∧
    reversed_state.stop_mode ≠ StopMode.TURNING.toInt ∧
    reversed_state.current_direction ≠ Direction.CLOCKWISE.toInt ∧
    (continue_movement Direction.CLOCKWISE reversed_state).total_steps = 65526 ∧
    ((continue_movement Direction.CLOCKWISE reversed_state).total_steps : Int) ≠
      (reversed_state.total_steps : Int) - reversed_state.remaning_steps := by
  decide

/-- C10 (amended): in a state with `stop_mode != TURNING` whose direction differs from
`d`, `continue_movement(d)` stores `total_steps - remaning_steps` reduced modulo 2^16
in `total_steps`, stores `d` and `TURNING`, and changes nothing else; the stored
value is the difference itself whenever `0 ≤ remaning_steps ≤ total_steps < 2^16`. -/
theorem continue_movement_reverse (s : MotorState) (d : Direction)
    (hstop : s.stop_mode ≠ StopMode.TURNING.toInt)
    (hdir : s.current_direction ≠ d.toInt) :
    continue_movement d s =
      { s with
        total_steps := to_uint16 ((s.total_steps : Int) - s.remaning_steps)
        current_direction := d.toInt
        stop_mode := StopMode.TURNING.toInt } ∧
    (0 ≤ s.remaning_steps → s.remaning_steps ≤ s.total_steps → s.total_steps < 65536 →
      ((continue_movement d s).total_steps : Int) =
        (s.total_steps : Int) - s.remaning_steps) := by
  have e : continue_movement d s =
      { s with
        total_steps := to_uint16 ((s.total_steps : Int) - s.remaning_steps)
        current_direction := d.toInt
        stop_mode := StopMode.TURNING.toInt } := by
    unfold continue_movement
    simp [hstop, hdir]
  refine ⟨e, fun h0 h1 h2 => ?_⟩
  rw [e]
  simp only [to_uint16]
  omega

theorem continue_movement_reverse_witness :
    stopped_10_6.stop_mode ≠ StopMode.TURNING.toInt ∧
    stopped_10_6.current_direction ≠ Direction.COUNTERCLOCKWISE.toInt ∧
    (continue_movement Direction.COUNTERCLOCKWISE stopped_10_6).total_steps = 4 ∧
    (continue_movement Direction.COUNTERCLOCKWISE stopped_10_6).remaning_steps = 6 ∧
    (continue_movement Direction.COUNTERCLOCKWISE stopped_10_6).current_step = 4 :=
  have h := continue_movement_reverse stopped_10_6 Direction.COUNTERCLOCKWISE
    (by decide) (by decide)
  ⟨by decide, by decide, by rw [h.1]; decide, by rw [h.1]; decide, by rw [h.1]; decide⟩

/-- C2: in every state reached from the initial state by `set_step_mode` followed by
any sequence of `set_step_mode`, `turn_steps`, `turn_infinite`, `stop`,
`continue_movement` and `turn_cotroller` calls, `current_step` is in 0..7, and a call
of `turn_cotroller` in that state reads no row outside `PHASE_STATES`. -/
theorem current_step_stays_in_table (m : StepMode) (cs : List Call) (s : MotorState)
    (hrun : run (Call.set_step_mode m :: cs) init = some s) :
    0 ≤ s.current_step ∧ s.current_step ≤ 7 ∧
    ∀ s1 c, turn_cotroller s = some (s1, c) → ∀ idx, c ≠ Commit.out_of_table idx := by
  have hinit : Held (set_step_mode m init) :=
    held_set_step_mode m init (Or.inl rfl) (Or.inl rfl)
  have hs : Held s := by
    simp only [run, Call.apply] at hrun
    exact held_run cs _ s hinit hrun
  obtain ⟨hm, h0, h7⟩ := hs
  refine ⟨h0, h7, fun s1 c hc idx => ?_⟩
  obtain ⟨_, hcase⟩ := turn_cotroller_held s s1 c hm hc
  obtain ⟨row, _, hrow⟩ := read_row_in_table s.current_step h0 h7
  rcases hcase with h | h | h
  · rw [h]; exact fun hne => Commit.noConfusion hne
  · rw [h]; exact fun hne => Commit.noConfusion hne
  · rw [h, hrow]; exact fun hne => Commit.noConfusion hne

theorem current_step_stays_in_table_witness :
    run (Call.set_step_mode StepMode.FULL_STEP :: switch_calls) init = some switch_state ∧
    0 ≤ switch_state.current_step ∧ switch_state.current_step ≤ 7 ∧
    ∀ s1 c, turn_cotroller switch_state = some (s1, c) →
      ∀ idx, c ≠ Commit.out_of_table idx :=
  ⟨by decide,
    current_step_stays_in_table StepMode.FULL_STEP switch_calls switch_state (by decide)⟩

/-- C3: after `turn_steps(4, 2, CLOCKWISE)` in half-step mode from row 0, any number
of calls of `turn_cotroller` leaves `current_step` at 0 and `remaning_steps` at 4
(no index advance is made, where the claim counts 4 and a final 0); and
`turn_steps(40000, ..)` stores `-25536` in the `int16_t` variable `remaning_steps`. -/
theorem finite_turn_never_advances :
    half_cw_4_at_2.current_step = 0 ∧ half_cw_4_at_2.remaning_steps = 4 ∧
    (∀ k, ∃ s2 tr, ticks k half_cw_4_at_2 = some (s2, tr) ∧
      s2.current_step = 0 ∧ s2.remaning_steps = 4) ∧
    (turn_steps 40000 2 Direction.CLOCKWISE
      (set_step_mode StepMode.HALF_STEP init)).remaning_steps = -25536 := by
  refine ⟨by decide, by decide, fun k => ?_, by decide⟩
  obtain ⟨s2, tr, ht, e⟩ := ticks_held k half_cw_4_at_2 (by decide) (Or.inr (by decide))
  have hcs : s2.current_step = half_cw_4_at_2.current_step := by rw [e]
  have hrs : s2.remaning_steps = half_cw_4_at_2.remaning_steps := by rw [e]
  exact ⟨s2, tr, ht, by rw [hcs]; decide, by rw [hrs]; decide⟩

/-- C7: at a speed between 1 and 1000, starting with a step-deciding call, the next
`1000 / current_speed` calls are `1000 / current_speed - 1` calls that do not decide
followed by one that does: consecutive step decisions are `1000 / current_speed` calls
apart, whatever the stop mode, which the calls leave unchanged. -/
theorem decisions_interval_apart (s : MotorState)
    (hlo : 1 ≤ s.current_speed) (hhi : s.current_speed ≤ 1000)
    (hdue : 1000 / s.current_speed ≤ s.current_millis) :
    ∃ s2 c0 c1, c0.isDecision = true ∧ c1.isDecision = true ∧
      ticks (1000 / s.current_speed + 1) s =
        some (s2, c0 :: (List.replicate (1000 / s.current_speed - 1) Commit.no_write
          ++ [c1])) ∧
      s2.stop_mode = s.stop_mode ∧ s2.current_speed = s.current_speed := by
  have hI : 1 ≤ 1000 / s.current_speed :=
    (Nat.le_div_iff_mul_le (by omega)).2 (by omega)
  obtain ⟨s1, c0, hd0, hb, hm1, hsp1, hst1⟩ := ticks_block s (by omega) hI hdue
  obtain ⟨s2, c1, hc1, hd1, _, hsp2, hst2⟩ :=
    turn_cotroller_decides s1 (by omega) (by rw [hm1, hsp1])
  have happ := ticks_append _ 1 s s1 s2 _ [c1] hb (ticks_one s1 s2 c1 hc1)
  exact ⟨s2, c0, c1, hd0, hd1, by simpa using happ, by rw [hst2, hst1], by rw [hsp2, hsp1]⟩

theorem decisions_interval_apart_witness :
    1 ≤ stopped_torque.current_speed ∧ stopped_torque.current_speed ≤ 1000 ∧
    1000 / stopped_torque.current_speed ≤ stopped_torque.current_millis ∧
    ∃ s2 c0 c1, c0.isDecision = true ∧ c1.isDecision = true ∧
      ticks (1000 / stopped_torque.current_speed + 1) stopped_torque =
        some (s2, c0 :: (List.replicate (1000 / stopped_torque.current_speed - 1)
          Commit.no_write ++ [c1])) ∧
      s2.stop_mode = stopped_torque.stop_mode ∧
      s2.current_speed = stopped_torque.current_speed :=
  ⟨by decide, by decide, by decide,
    decisions_interval_apart stopped_torque (by decide) (by decide) (by decide)⟩

/-- C8 (as stated, refuted): in the scenario `turn_steps(4, 2, CLOCKWISE)`, half-step
mode, row 0, elapsed counter 0 and interval 500, the 2000 = 4 * 500 calls make 3 step
decisions, not 4, and leave `current_step` at 0 and `remaning_steps` at 4. -/
theorem scenario_after_2000_calls :
    half_cw_4_at_2.current_millis = 0 ∧ 1000 / half_cw_4_at_2.current_speed = 500 ∧
    ∃ s2 tr, ticks 2000 half_cw_4_at_2 = some (s2, tr) ∧ decisions tr = 3 ∧
      s2.current_step = 0 ∧ s2.remaning_steps = 4 := by
  refine ⟨by decide, by decide, ?_⟩
  obtain ⟨s2, tr, ht, hd, _, _⟩ :=
    ticks_from_zero 3 half_cw_4_at_2 (by decide) (by decide) (by decide)
  have h500 : 1000 / half_cw_4_at_2.current_speed = 500 := by decide
  rw [h500] at ht
  obtain ⟨s3, tr3, ht3, e⟩ := ticks_held 2000 half_cw_4_at_2 (by decide) (Or.inr (by decide))
  have hsame : s3 = s2 := by
    have := ht3.symm.trans ht
    simp only [Option.some.injEq, Prod.mk.injEq] at this
    exact this.1
  subst hsame
  have hcs : s3.current_step = half_cw_4_at_2.current_step := by rw [e]
  have hrs : s3.remaning_steps = half_cw_4_at_2.remaning_steps := by rw [e]
  exact ⟨s3, tr, ht, hd, by rw [hcs]; decide, by rw [hrs]; decide⟩

/-- C8 (amended): a call tests the elapsed counter before it increments it.  From an
elapsed counter of 0 with interval `1000 / current_speed ≥ 1`, the first call makes no
decision and only sets the counter to 1; after `m * interval` calls (`m ≥ 1`) exactly
`m - 1` step decisions have been made, and after one more call exactly `m`. -/
theorem decisions_after_intervals (s : MotorState) (m : Nat)
    (hspeed : 0 < s.current_speed) (hI : 1 ≤ 1000 / s.current_speed)
    (h0 : s.current_millis = 0) (hm : 1 ≤ m) :
    turn_cotroller s = some ({ s with current_millis := 1 }, Commit.no_write) ∧
    (∃ s2 tr, ticks (m * (1000 / s.current_speed)) s = some (s2, tr) ∧
      decisions tr = m - 1) ∧
    (∃ s2 tr, ticks (m * (1000 / s.current_speed) + 1) s = some (s2, tr) ∧
      decisions tr = m) := by
  obtain ⟨k, rfl⟩ : ∃ k, m = k + 1 := ⟨m - 1, by omega⟩
  obtain ⟨s2, tr, ht, hd, hm2, hsp2⟩ := ticks_from_zero k s hspeed hI h0
  refine ⟨?_, ⟨s2, tr, ht, by simpa using hd⟩, ?_⟩
  · rw [turn_cotroller_wait s hspeed (by omega), h0]
    rfl
  · obtain ⟨s3, c, hc, hdec, _, _, _⟩ :=
      turn_cotroller_decides s2 (by omega) (by rw [hm2, hsp2])
    have happ := ticks_append _ 1 s s2 s3 tr [c] ht (ticks_one s2 s3 c hc)
    refine ⟨s3, _, happ, ?_⟩
    rw [decisions_append, hd, decisions_single c hdec]

theorem decisions_after_intervals_witness :
    0 < half_cw_4_at_2.current_speed ∧ 1 ≤ 1000 / half_cw_4_at_2.current_speed ∧
    half_cw_4_at_2.current_millis = 0 ∧ 1 ≤ 4 ∧
    (∃ s2 tr, ticks (4 * (1000 / half_cw_4_at_2.current_speed)) half_cw_4_at_2 =
      some (s2, tr) ∧ decisions tr = 4 - 1) ∧
    (∃ s2 tr, ticks (4 * (1000 / half_cw_4_at_2.current_speed) + 1) half_cw_4_at_2 =
      some (s2, tr) ∧ decisions tr = 4) :=
  have h := decisions_after_intervals half_cw_4_at_2 4
    (by decide) (by decide) (by decide) (by decide)
  ⟨by decide, by decide, by decide, by decide, h.2.1, h.2.2⟩

/-- C11: in a state with `stop_mode = TURNING` and stored direction `d`, `stop(TORQUE)`
followed by `continue_movement(d)` gives back the state before the stop: the stop
mode is `TURNING` and every other field, among them `current_step`, `remaning_steps`,
`total_steps` and the direction, is unchanged. -/
theorem stop_torque_then_continue (s : MotorState) (d : Direction)
    (hturn : s.stop_mode = StopMode.TURNING.toInt)
    (hdir : s.current_direction = d.toInt) :
    continue_movement d (stop StopMode.TORQUE s) = s ∧
    (continue_movement d (stop StopMode.TORQUE s)).stop_mode = StopMode.TURNING.toInt := by
  have hs : stop StopMode.TORQUE s = s := by
    obtain ⟨_, _, _, _, _, _, _, sm, _, _, _, _, _, _⟩ := s
    simp only [StopMode.toInt] at hturn
    simp only [stop, StopMode.toInt, MotorState.mk.injEq, true_and, and_true]
    omega
  have e : continue_movement d (stop StopMode.TORQUE s) = s := by
    rw [hs]
    unfold continue_movement
    simp [hturn]
  exact ⟨e, by rw [e]; exact hturn⟩

theorem stop_torque_then_continue_witness :
    half_ccw_turn.stop_mode = StopMode.TURNING.toInt ∧
    half_ccw_turn.current_direction = Direction.COUNTERCLOCKWISE.toInt ∧
    continue_movement Direction.COUNTERCLOCKWISE (stop StopMode.TORQUE half_ccw_turn) =
      half_ccw_turn ∧
    (continue_movement Direction.COUNTERCLOCKWISE
      (stop StopMode.TORQUE half_ccw_turn)).stop_mode = StopMode.TURNING.toInt :=
  ⟨by decide, by decide,
    stop_torque_then_continue half_ccw_turn Direction.COUNTERCLOCKWISE (by decide) (by decide)⟩

/-- C13: in the completed finite turn `completed_turn` (`stop_mode = TURNING`,
`is_infinite_turn = 0`, `remaning_steps = 0`) the second call of `turn_cotroller` is
step-deciding and writes row 0 of `PHASE_STATES` to the four lines. -/
theorem completed_turn_commits_output :
    completed_turn.stop_mode = StopMode.TURNING.toInt ∧
    completed_turn.is_infinite_turn = 0 ∧
    completed_turn.remaning_steps = 0 ∧
    ticks 2 completed_turn =
      some ({ completed_turn with current_millis := 1 },
        [Commit.no_write, Commit.lines (phase_row 0)]) := by
  decide

/-- C14: `stop(mode)` changes only `stop_mode`, for every state and mode, and
`stop(FREE)` twice leaves the state that `stop(FREE)` once leaves. -/
theorem stop_changes_only_stop_mode (s : MotorState) (mode : StopMode) :
    stop mode s = { s with stop_mode := mode.toInt } ∧
    (stop mode s).current_step = s.current_step ∧
    (stop mode s).remaning_steps = s.remaning_steps ∧
    (stop mode s).total_steps = s.total_steps ∧
    (stop mode s).current_direction = s.current_direction ∧
    (stop mode s).current_speed = s.current_speed ∧
    (stop mode s).is_infinite_turn = s.is_infinite_turn ∧
    (stop mode s).step_mode = s.step_mode ∧
    (stop mode s).current_millis = s.current_millis ∧
    stop StopMode.FREE (stop StopMode.FREE s) = stop StopMode.FREE s :=
  ⟨rfl, rfl, rfl, rfl, rfl, rfl, rfl, rfl, rfl, rfl⟩

/-- C15: when `stop_mode` is already `TURNING`, `continue_movement(d)` leaves the whole
state unchanged, for either direction `d`, also one that differs from the stored
direction. -/
theorem continue_movement_while_turning (s : MotorState) (d : Direction)
    (hturn : s.stop_mode = StopMode.TURNING.toInt) :
    continue_movement d s = s := by
  unfold continue_movement
  simp [hturn]

theorem continue_movement_while_turning_witness :
    half_ccw_turn.stop_mode = StopMode.TURNING.toInt ∧
    half_ccw_turn.current_direction ≠ Direction.CLOCKWISE.toInt ∧
    continue_movement Direction.CLOCKWISE half_ccw_turn = half_ccw_turn :=
  ⟨by decide, by decide,
    continue_movement_while_turning half_ccw_turn Direction.CLOCKWISE (by decide)⟩

/-- C17: in a state with `stop_mode = TURNING`, `is_infinite_turn = 0`,
`remaning_steps = 0` and a positive speed, any number of calls of `turn_cotroller`
returns, and leaves `current_step`, `remaning_steps`, `total_steps`, the direction,
`stop_mode` and `step_mode` unchanged. -/
theorem completed_turn_stays_idle (s : MotorState) (n : Nat)
    (hturn : s.stop_mode = StopMode.TURNING.toInt)
    (_hfinite : s.is_infinite_turn = 0) (_hdone : s.remaning_steps = 0)
    (hspeed : 0 < s.current_speed) :
    ∃ s2 tr, ticks n s = some (s2, tr) ∧
      s2.current_step = s.current_step ∧ s2.remaning_steps = s.remaning_steps ∧
      s2.total_steps = s.total_steps ∧ s2.current_direction = s.current_direction ∧
      s2.stop_mode = s.stop_mode ∧ s2.step_mode = s.step_mode := by
  obtain ⟨s2, tr, ht, e⟩ := ticks_held n s hspeed (Or.inr hturn)
  refine ⟨s2, tr, ht, ?_, ?_, ?_, ?_, ?_, ?_⟩ <;> rw [e]

theorem completed_turn_stays_idle_witness :
    completed_turn.stop_mode = StopMode.TURNING.toInt ∧
    completed_turn.is_infinite_turn = 0 ∧ completed_turn.remaning_steps = 0 ∧
    0 < completed_turn.current_speed ∧
    ∃ s2 tr, ticks 3000 completed_turn = some (s2, tr) ∧
      s2.current_step = completed_turn.current_step ∧
      s2.remaning_steps = completed_turn.remaning_steps ∧
      s2.total_steps = completed_turn.total_steps ∧
      s2.current_direction = completed_turn.current_direction ∧
      s2.stop_mode = completed_turn.stop_mode ∧
      s2.step_mode = completed_turn.step_mode :=
  ⟨by decide, by decide, by decide, by decide,
    completed_turn_stays_idle completed_turn 3000
      (by decide) (by decide) (by decide) (by decide)⟩

/-- C20: every row of `PHASE_STATES` at an even index energizes exactly one coil, every
row at an odd index exactly two, cyclically consecutive rows differ in exactly one
line, and `OFF_STATE` energizes no coil; the table has 8 rows of 4 lines. -/
theorem phase_table_is_half_step_sequence :
    PHASE_STATES.length = 8 ∧
    (∀ i : Fin 8, (phase_row i).length = 4) ∧
    (∀ i : Fin 8, i.val % 2 = 0 → energized (phase_row i) = 1) ∧
    (∀ i : Fin 8, i.val % 2 = 1 → energized (phase_row i) = 2) ∧
    (∀ i : Fin 8, differing_lines (phase_row i) (phase_row (i + 1)) = 1) ∧
    OFF_STATE.length = 4 ∧ energized OFF_STATE = 0 := by
  decide

/-- C12 (as stated, refuted): in the initial state `remaning_steps ≤ total_steps`
holds, and after `turn_steps(10, 5, CLOCKWISE)`, `stop(FREE)`,
`continue_movement(COUNTERCLOCKWISE)`, `stop(FREE)` the state has `total_steps = 0`
and `remaning_steps = 10`. -/
theorem reversal_breaks_counter_order :
    init.remaning_steps ≤ (init.total_steps : Int) ∧
    run reversed_calls init = some reversed_state ∧
    reversed_state.total_steps = 0 ∧ reversed_state.remaning_steps = 10 ∧
    ¬ reversed_state.remaning_steps ≤ (reversed_state.total_steps : Int) := by
  decide

/-- C12 (amended): `remaning_steps ≤ total_steps` holds in the initial state; it is
established by `turn_steps` and preserved by `set_step_mode`, `turn_infinite`, `stop`,
by `continue_movement` when the stop mode is `TURNING` or the direction is unchanged,
and by `turn_cotroller` when `remaning_steps` is above -32768 or `stop_mode` is 0 or 1;
it holds in every state reached from the initial state by calls other than
`continue_movement`. -/
theorem counter_order_preserved (s : MotorState)
    (h : s.remaning_steps ≤ (s.total_steps : Int)) :
    init.remaning_steps ≤ (init.total_steps : Int) ∧
    (∀ m, (set_step_mode m s).remaning_steps ≤ ((set_step_mode m s).total_steps : Int)) ∧
    (∀ n speed d, (turn_steps n speed d s).remaning_steps ≤
      ((turn_steps n speed d s).total_steps : Int)) ∧
    (∀ speed d, (turn_infinite speed d s).remaning_steps ≤
      ((turn_infinite speed d s).total_steps : Int)) ∧
    (∀ m, (stop m s).remaning_steps ≤ ((stop m s).total_steps : Int)) ∧
    (∀ d, s.stop_mode = StopMode.TURNING.toInt ∨ s.current_direction = d.toInt →
      (continue_movement d s).remaning_steps ≤ ((continue_movement d s).total_steps : Int)) ∧
    (∀ s1 c, turn_cotroller s = some (s1, c) →
      -32768 < s.remaning_steps ∨ s.stop_mode = 0 ∨ s.stop_mode = 1 →
      s1.remaning_steps ≤ (s1.total_steps : Int)) ∧
    (∀ cs s2, (∀ c ∈ cs, c.isContinue = false) → run cs init = some s2 →
      s2.remaning_steps ≤ (s2.total_steps : Int)) := by
  refine ⟨by decide, fun m => ?_, fun n speed d => turn_steps_counters n speed d s,
    fun _ _ => h, fun _ => h, fun d hsame => ?_,
    fun s1 c hc hside => turn_cotroller_counters s s1 c h hside hc,
    fun cs s2 hcs hr => counters_run cs init s2 (Or.inl rfl) (by decide) hcs hr⟩
  · obtain ⟨e1, e2, _⟩ := set_step_mode_counters m s
    rw [e1, e2]
    exact h
  · obtain ⟨e1, e2⟩ := continue_movement_counters d s hsame
    rw [e1, e2]
    exact h

theorem counter_order_preserved_witness :
    stopped_10_6.remaning_steps ≤ (stopped_10_6.total_steps : Int) ∧
    (turn_steps 40000 5 Direction.CLOCKWISE stopped_10_6).remaning_steps ≤
      ((turn_steps 40000 5 Direction.CLOCKWISE stopped_10_6).total_steps : Int) ∧
    (continue_movement Direction.CLOCKWISE stopped_10_6).remaning_steps ≤
      ((continue_movement Direction.CLOCKWISE stopped_10_6).total_steps : Int) :=
  have h := counter_order_preserved stopped_10_6 (by decide)
  ⟨by decide, h.2.2.1 40000 5 Direction.CLOCKWISE,
    h.2.2.2.2.2.1 Direction.CLOCKWISE (Or.inr (by decide))⟩

/-- C18: for `current_step` in 0..7 and every step mode, `set_step_mode` moves
`current_step` by at most one position and leaves it in 0..7. -/
theorem set_step_mode_moves_at_most_one (s : MotorState) (m : StepMode)
    (h0 : 0 ≤ s.current_step) (h7 : s.current_step ≤ 7) :
    (set_step_mode m s).current_step - s.current_step ≤ 1 ∧
    s.current_step - (set_step_mode m s).current_step ≤ 1 ∧
    0 ≤ (set_step_mode m s).current_step ∧ (set_step_mode m s).current_step ≤ 7 := by
  have h : s.current_step = 0 ∨ s.current_step = 1 ∨
      s.current_step = 2 ∨ s.current_step = 3 ∨ s.current_step = 4 ∨
      s.current_step = 5 ∨ s.current_step = 6 ∨ s.current_step = 7 := by omega
  have t0 : Int.tmod 0 2 = 0 := by decide
  have t1 : Int.tmod 1 2 = 1 := by decide
  have t2 : Int.tmod 2 2 = 0 := by decide
  have t3 : Int.tmod 3 2 = 1 := by decide
  have t4 : Int.tmod 4 2 = 0 := by decide
  have t5 : Int.tmod 5 2 = 1 := by decide
  have t6 : Int.tmod 6 2 = 0 := by decide
  have t7 : Int.tmod 7 2 = 1 := by decide
  unfold set_step_mode
  rcases h with h | h | h | h | h | h | h | h <;> cases m <;>
    simp [h, StepMode.toInt, to_int8, t0, t1, t2, t3, t4, t5, t6, t7]

theorem set_step_mode_moves_at_most_one_witness :
    (0 : Int) ≤ full_turn_at_7.current_step ∧ full_turn_at_7.current_step ≤ 7 ∧
    (set_step_mode StepMode.WAVE_STEP full_turn_at_7).current_step -
      full_turn_at_7.current_step ≤ 1 ∧
    full_turn_at_7.current_step -
      (set_step_mode StepMode.WAVE_STEP full_turn_at_7).current_step ≤ 1 ∧
    0 ≤ (set_step_mode StepMode.WAVE_STEP full_turn_at_7).current_step ∧
    (set_step_mode StepMode.WAVE_STEP full_turn_at_7).current_step ≤ 7 :=
  ⟨by decide, by decide,
    set_step_mode_moves_at_most_one full_turn_at_7 StepMode.WAVE_STEP (by decide) (by decide)⟩

/-- C19: with a step mode of skip factor 2 (`WAVE_STEP` or `FULL_STEP`) and a positive
speed, any number of calls of `turn_cotroller` returns and leaves `current_step` with
the parity it had, whatever the stop mode and the direction; in particular a single
step-deciding call in a `TURNING` state keeps the parity. -/
theorem skip_two_keeps_parity (s : MotorState) (n : Nat)
    (hmode : s.step_mode = StepMode.WAVE_STEP.toInt ∨
      s.step_mode = StepMode.FULL_STEP.toInt)
    (hspeed : 0 < s.current_speed) :
    ∃ s2 tr, ticks n s = some (s2, tr) ∧ s2.current_step % 2 = s.current_step % 2 := by
  have h2 : s.step_mode = 2 := by
    rcases hmode with h | h <;> simpa [StepMode.toInt] using h
  clear hmode
  induction n generalizing s with
  | zero => exact ⟨s, [], rfl, rfl⟩
  | succ k ih =>
    obtain ⟨⟨s1, c⟩, hc⟩ := turn_cotroller_total s hspeed
    obtain ⟨hp, hm, hsp⟩ := turn_cotroller_parity s s1 c h2 hc
    obtain ⟨s2, tr, ht, hp2⟩ := ih s1 (by omega) (by rw [hm]; exact h2)
    exact ⟨s2, c :: tr, by simp [ticks, hc, ht], by rw [hp2, hp]⟩

theorem skip_two_keeps_parity_witness :
    (full_turn_at_7.step_mode = StepMode.WAVE_STEP.toInt ∨
      full_turn_at_7.step_mode = StepMode.FULL_STEP.toInt) ∧
    0 < full_turn_at_7.current_speed ∧
    full_turn_at_7.stop_mode = StopMode.TURNING.toInt ∧
    ∃ s2 tr, ticks 2 full_turn_at_7 = some (s2, tr) ∧
      s2.current_step % 2 = full_turn_at_7.current_step % 2 :=
  ⟨Or.inr (by decide), by decide, by decide,
    skip_two_keeps_parity full_turn_at_7 2 (Or.inr (by decide)) (by decide)⟩

end StepperMotor
